import Mathlib

/-!
# PicoShare upload client (`handlers/static/js/controllers/files.js`)

A shallow embedding of the browser-side upload client: the chunked transport
`uploadFormData`, the single-request transport `uploadFormDataXHR`, the entry
points `uploadFile` / `guestUploadFile`, and the metadata calls `editFile` /
`deleteFile`.

Modelling conventions.

* Byte counts and indices are natural numbers.  The source computes
  `Math.ceil(file.size / CHUNK_SIZE)` on IEEE doubles; the embedding uses exact
  integer arithmetic, which agrees with it for every size a browser `File` can
  report in practice (the two differ only above roughly `2^52` bytes).
* The network is an explicit argument: `fetch i` is the outcome of the `i`-th
  `fetch` call of one upload.  The client is sequential and deterministic, so
  a server is fully described by the sequence of its answers.
* A promise is modelled by its settled outcome, `Except` with the rejection
  value on the left.
* Everything the code hands to the outside (requests, progress callback
  invocations) is collected in order in the returned record.
-/

namespace PicoShare

/-! ## JavaScript values -/

/-- Parsed JSON value, as produced by `response.json()` or `JSON.parse`.
For numbers only the distinction zero / non-zero is observed by the code. -/
inductive Json where
  | null
  | bool (b : Bool)
  | num (x : Int)
  | str (s : String)
  | arr (items : List Json)
  | obj (fields : List (String × Json))

/-- Value a promise is rejected with: a string primitive, or an `Error`
object with its constructor name and `message`. -/
inductive Thrown where
  | str (s : String)
  | error (name : String) (message : String)

/-- Ways in which the upload functions reject: with a value of the model, or
with a `TypeError` raised by the JavaScript engine itself (its message text is
engine specific and is not modelled). -/
inductive Failure where
  | thrown (t : Thrown)
  | engineTypeError

/-- JavaScript truthiness of a JSON value (`if (v)`). -/
def Json.truthy : Json → Bool
  | .null => false
  | .bool b => b
  | .num x => x != 0
  | .str s => s != ""
  | .arr _ => true
  | .obj _ => true

/-- Own property lookup on a parsed object: `data[key]`, `none` standing for
`undefined`.  Arrays and primitives have no such named property. -/
def Json.getProp : Json → String → Option Json
  | .obj fields, key => fields.lookup key
  | _, _ => none

/-- The operator `key in data`.  On an object it tests for the property; on an
array the (non-index) key is absent; on a primitive or `null` the engine
raises a `TypeError`. -/
def Json.hasIn (data : Json) (key : String) : Except Failure Bool :=
  match data with
  | .obj fields => .ok (fields.lookup key).isSome
  | .arr _ => .ok false
  | _ => .error .engineTypeError

/-- The call `Object.prototype.hasOwnProperty.call(data, key)` for a
non-index, non-`length` key.  `null` cannot be converted to an object and
raises a `TypeError`; other primitives are boxed and do not own the key. -/
def Json.hasOwnProperty (data : Json) (key : String) : Except Failure Bool :=
  match data with
  | .obj fields => .ok (fields.lookup key).isSome
  | .null => .error .engineTypeError
  | _ => .ok false

/-- Strict comparison of an optional property value with the empty string,
`v === ''`. -/
def isEmptyString : Option Json → Bool
  | some (.str s) => s == ""
  | _ => false

/-- Truthiness of a possibly `undefined` / `null` value holding JSON. -/
def truthyValue : Option Json → Bool
  | some v => v.truthy
  | none => false

/-- Truthiness of a possibly absent string (`if (note)`). -/
def truthyString : Option String → Bool
  | some s => s != ""
  | none => false

/-- The property `error.message` of a rejection value: a string primitive has
none (`undefined`), an `Error` object has its message. -/
def Thrown.message : Thrown → Option String
  | .str _ => none
  | .error _ m => some m

/-! ## Files, chunks, requests -/

/-- Browser `File`: only its size, name and MIME type are observed. -/
structure File where
  size : Nat
  name : String
  type : String

/-- Byte range `[start, stop)` of the uploaded file, the result of
`file.slice`. -/
structure Chunk where
  start : Nat
  stop : Nat

/-- Number of bytes of a chunk (`chunk.size`). -/
def Chunk.size (c : Chunk) : Nat := c.stop - c.start

/-- The call `file.slice(start, end)`: both offsets are clamped to the file size. -/
def File.slice (file : File) (start stop : Nat) : Chunk :=
  ⟨min start file.size, min stop file.size⟩

/-- The `FormData` handed to `uploadFormData`: the `file` entry and the
optional `note` entry (`formData.get('note')` is `null` when absent). -/
structure UploadForm where
  file : File
  note : Option String

/-- One `fetch` request of the chunked upload: target, method, `Accept`
header, and the multipart fields of `chunkData`.  `note` and `id` are `none`
when the field is not appended. -/
structure ChunkRequest where
  url : String
  method : String
  accept : String
  file : Chunk
  filename : String
  contentType : String
  last : String
  note : Option String
  id : Option Json

/-- Server answer to one chunk request: `response.ok`, `response.statusText`
and the outcome of `response.json()`. -/
structure Response where
  ok : Bool
  statusText : String
  json : Except Thrown Json

/-- Observable behaviour of one `uploadFormData` call: how the promise settles
(`some data` for a returned value, `none` for `undefined`), the requests sent
and the `progressFn(uploaded, totalSize)` invocations, both in order. -/
structure Run where
  result : Except Failure (Option Json)
  requests : List ChunkRequest
  progress : List (Nat × Nat)

/-- Put the effects of earlier iterations in front of a run. -/
def Run.after (reqs : List ChunkRequest) (calls : List (Nat × Nat)) (r : Run) : Run :=
  ⟨r.result, reqs ++ r.requests, calls ++ r.progress⟩

/-! ## `uploadFormData` -/

/-- Source constant `CHUNK_SIZE = 32768 * 10`. -/
def CHUNK_SIZE : Nat := 32768 * 10

/-- Source expression `Math.ceil(file.size / CHUNK_SIZE)`. -/
def splitsOf (size : Nat) : Nat := (size + (CHUNK_SIZE - 1)) / CHUNK_SIZE

/-- Value of the `last` field in iteration `i`: `i === splits - 1 ? "1" : "0"`. -/
def lastFlag (splits i : Nat) : String := if i = splits - 1 then "1" else "0"

/-- The slice sent in iteration `i`: `file.slice(start, start + CHUNK_SIZE)`
with `start = i * CHUNK_SIZE`. -/
def chunkOf (file : File) (i : Nat) : Chunk :=
  file.slice (i * CHUNK_SIZE) (i * CHUNK_SIZE + CHUNK_SIZE)

/-- The request built in iteration `i` of the loop (`chunkData` together with
the `fetch` options), given the current value of the variable `id`. -/
def chunkRequest (url : String) (file : File) (note : Option String) (id : Option Json)
    (splits i : Nat) : ChunkRequest where
  url := url
  method := "POST"
  accept := "application/json"
  file := chunkOf file i
  filename := file.name
  contentType := file.type
  last := lastFlag splits i
  note := if truthyString note then note else none
  id := if truthyValue id then id else none

/-- The error `new Error("Missing expected id field")`. -/
def missingIdError : Failure := .thrown (.error "Error" "Missing expected id field")

/-- The error `new Error("Upload failed: " + statusText)`. -/
def uploadFailedError (statusText : String) : Failure :=
  .thrown (.error "Error" ("Upload failed: " ++ statusText))

/-- The `for` loop of `uploadFormData` over the remaining indices, with the
current values of the variables `uploaded` and `id`. -/
def uploadLoop (url : String) (file : File) (note : Option String) (progressFn : Bool)
    (fetch : Nat → Except Thrown Response) (splits : Nat) :
    List Nat → Nat → Option Json → Run
  | [], _, _ => ⟨.ok none, [], []⟩
  | i :: rest, uploaded, id =>
    let start := i * CHUNK_SIZE
    let chunk := chunkOf file i
    let chunkData := chunkRequest url file note id splits i
    match fetch i with
    | .error e => ⟨.error (.thrown e), [chunkData], []⟩
    | .ok response =>
      if !response.ok then
        ⟨.error (uploadFailedError response.statusText), [chunkData], []⟩
      else
        let uploaded' := uploaded + chunk.size
        let calls := if progressFn then [(uploaded', file.size)] else []
        if 0 < start ∧ uploaded' ≠ file.size then
          (uploadLoop url file note progressFn fetch splits rest uploaded' id).after
            [chunkData] calls
        else
          match response.json with
          | .error e => ⟨.error (.thrown e), [chunkData], calls⟩
          | .ok data =>
            if uploaded' = file.size then
              ⟨.ok (some data), [chunkData], calls⟩
            else
              match data.hasIn "id" with
              | .error f => ⟨.error f, [chunkData], calls⟩
              | .ok false => ⟨.error missingIdError, [chunkData], calls⟩
              | .ok true =>
                if isEmptyString (data.getProp "id") then
                  ⟨.error missingIdError, [chunkData], calls⟩
                else
                  (uploadLoop url file note progressFn fetch splits rest uploaded'
                    (data.getProp "id")).after [chunkData] calls

/-- Source function `uploadFormData(url, formData, progressFn)`; `progressFn`
tells whether a callback was supplied. -/
def uploadFormData (url : String) (formData : UploadForm) (progressFn : Bool)
    (fetch : Nat → Except Thrown Response) : Run :=
  let file := formData.file
  let splits := splitsOf file.size
  uploadLoop url file formData.note progressFn fetch splits (List.range splits) 0 none

/-- Source function `uploadFile(file, expirationTime, note, progressFn)`. -/
def uploadFile (encodeURIComponent : String → String) (file : File) (expirationTime : String)
    (note : Option String) (progressFn : Bool) (fetch : Nat → Except Thrown Response) : Run :=
  uploadFormData ("/api/entry?expiration=" ++ encodeURIComponent expirationTime)
    ⟨file, if truthyString note then note else none⟩ progressFn fetch

/-- Source function `guestUploadFile(file, guestLinkID, expirationTime, progressFn)`. -/
def guestUploadFile (encodeURIComponent : String → String) (file : File) (guestLinkID : String)
    (expirationTime : String) (progressFn : Bool) (fetch : Nat → Except Thrown Response) : Run :=
  uploadFormData
    ("/api/guest/" ++ guestLinkID ++ "?expiration=" ++ encodeURIComponent expirationTime)
    ⟨file, none⟩ progressFn fetch

/-- The chunk plan of `uploadFormData` for a file: for each loop index the
slice taken and the `last` flag attached. -/
def chunkPlan (file : File) : List (Chunk × String) :=
  (List.range (splitsOf file.size)).map fun i => (chunkOf file i, lastFlag (splitsOf file.size) i)

/-! ## `uploadFormDataXHR` -/

/-- What the `XMLHttpRequest` reports for one exchange: the upload `progress`
events (`lengthComputable`, `loaded`, `total`), whether the `error` event fired
(it fires before `loadend`), and the final `status`, `statusText` and
`responseText`. -/
structure XhrExchange where
  progressEvents : List (Bool × Nat × Nat)
  errorEvent : Bool
  status : Nat
  statusText : String
  responseText : String

/-- The request opened and sent by `uploadFormDataXHR`. -/
structure XhrRequest where
  method : String
  url : String
  accept : String
  body : UploadForm

/-- Observable behaviour of one `uploadFormDataXHR` call. -/
structure XhrRun where
  result : Except Failure Json
  requests : List XhrRequest
  progress : List (Nat × Nat)

/-- Settlement of the promise built around the `XMLHttpRequest`: the first of
the `error` and `loadend` handlers to run decides. -/
def xhrSettle (xhr : XhrExchange) : Except Thrown String :=
  if xhr.errorEvent then
    .error (.str ("Failed to communicate with server" ++
      (if xhr.statusText != "" then ": " ++ xhr.statusText else ".")))
  else if 200 ≤ xhr.status ∧ xhr.status < 300 then
    .ok xhr.responseText
  else if xhr.responseText != "" then
    .error (.str xhr.responseText)
  else
    .error (.str xhr.statusText)

/-- Second `then` handler of `uploadFormDataXHR`: the `hasOwnProperty` test. -/
def requireOwnId (data : Json) : Except Failure Json :=
  match data.hasOwnProperty "id" with
  | .error f => .error f
  | .ok false => .error missingIdError
  | .ok true => .ok data

/-- Source function `uploadFormDataXHR(url, formData, progressFn)`.  The
builtin `JSON.parse` is an argument. -/
def uploadFormDataXHR (JSON_parse : String → Except Thrown Json) (url : String)
    (formData : UploadForm) (progressFn : Bool) (xhr : XhrExchange) : XhrRun where
  requests := [⟨"POST", url, "application/json", formData⟩]
  progress :=
    (xhr.progressEvents.filter fun e => e.1 && progressFn).map fun e => (e.2.1, e.2.2)
  result :=
    match xhrSettle xhr with
    | .error e => .error (.thrown e)
    | .ok raw =>
      match JSON_parse raw with
      | .error e => .error (.thrown e)
      | .ok data => requireOwnId data

/-! ## `editFile` and `deleteFile` -/

/-- Request of the metadata client.  `body` is the payload handed to
`JSON.stringify`, `none` when the request has no body. -/
structure EntryRequest where
  url : String
  method : String
  credentials : String
  body : Option (List (String × Json))

/-- Server answer to a metadata request: `response.ok` and the outcome of
`response.text()`. -/
structure EntryResponse where
  ok : Bool
  text : Except Thrown String

/-- The trailing `.catch` handler shared by `editFile` and `deleteFile`. -/
def catchHandler (error : Thrown) : Except Thrown Unit :=
  if truthyString error.message then
    .error (.str ("Failed to communicate with server" ++
      (if truthyString error.message then ": " ++ error.message.getD "" else ".")))
  else
    .error error

/-- The `.then` handler shared by `editFile` and `deleteFile`. -/
def thenHandler (response : EntryResponse) : Except Thrown Unit :=
  if !response.ok then
    match response.text with
    | .error e => .error e
    | .ok error => .error (.str error)
  else
    .ok ()

/-- The chain `fetch(...).then(thenHandler).catch(catchHandler)`. -/
def settleEntry (outcome : Except Thrown EntryResponse) : Except Thrown Unit :=
  match outcome.bind thenHandler with
  | .error e => catchHandler e
  | .ok u => .ok u

/-- The request issued by `editFile`: the payload holds `filename` and `note`,
and `expiration` only when it is truthy. -/
def editRequest (encodeURIComponent : String → String) (id filename : String)
    (expiration : Option String) (note : String) : EntryRequest :=
  let payload : List (String × Json) := [("filename", .str filename), ("note", .str note)]
  let payload := if truthyString expiration then
    payload ++ [("expiration", .str (expiration.getD ""))] else payload
  ⟨"/api/entry/" ++ encodeURIComponent id, "PUT", "include", some payload⟩

/-- The request issued by `deleteFile`. -/
def deleteRequest (id : String) : EntryRequest :=
  ⟨"/api/entry/" ++ id, "DELETE", "include", none⟩

/-- Source function `editFile(id, filename, expiration, note)`. -/
def editFile (encodeURIComponent : String → String)
    (fetch : EntryRequest → Except Thrown EntryResponse)
    (id filename : String) (expiration : Option String) (note : String) : Except Thrown Unit :=
  settleEntry (fetch (editRequest encodeURIComponent id filename expiration note))

/-- Source function `deleteFile(id)`. -/
def deleteFile (fetch : EntryRequest → Except Thrown EntryResponse) (id : String) :
    Except Thrown Unit :=
  settleEntry (fetch (deleteRequest id))


/-! ## Sample inputs -/

/-- A file of the given size. -/
def sampleFile (size : Nat) : File := ⟨size, "a.bin", "application/octet-stream"⟩

/-- A server record with an `id`. -/
def sampleRecord : Json := .obj [("id", .str "abc")]

/-- A server that acknowledges every chunk with `sampleRecord`. -/
def ackServer : Nat → Except Thrown Response :=
  fun _ => .ok ⟨true, "OK", .ok sampleRecord⟩

/-- A server that acknowledges every chunk, but whose answer to the second
chunk (index 1) is a JSON object without `id`. -/
def noIdOnSecondServer : Nat → Except Thrown Response :=
  fun i => if i = 1 then .ok ⟨true, "OK", .ok (.obj [])⟩ else .ok ⟨true, "OK", .ok sampleRecord⟩

/-- A server that acknowledges every chunk with a JSON object without `id`. -/
def noIdServer : Nat → Except Thrown Response :=
  fun _ => .ok ⟨true, "OK", .ok (.obj [("size", .num 3)])⟩

/-- A server that acknowledges chunks 0 and 1 and answers chunk 2 with
status 500. -/
def failOnThirdServer : Nat → Except Thrown Response :=
  fun i =>
    if i = 2 then .ok ⟨false, "Internal Server Error", .ok .null⟩
    else .ok ⟨true, "OK", .ok sampleRecord⟩

/-- A stand-in for `JSON.parse` that knows the one text used below, an object
whose `id` is the empty string. -/
def sampleParse : String → Except Thrown Json :=
  fun raw =>
    if raw = "\x7b\"id\":\"\"\x7d" then .ok (.obj [("id", .str "")])
    else .error (.error "SyntaxError" "Unexpected token")

/-- A completed exchange with status 200 and the given body. -/
def okExchange (body : String) : XhrExchange := ⟨[], false, 200, "OK", body⟩

/-- A metadata server answering 404 with a body text. -/
def notFoundServer : EntryRequest → Except Thrown EntryResponse :=
  fun _ => .ok ⟨false, .ok "entry not found"⟩

/-- A metadata server answering with success. -/
def okEntryServer : EntryRequest → Except Thrown EntryResponse :=
  fun _ => .ok ⟨true, .ok ""⟩

/-- A network on which every request fails. -/
def offlineServer : EntryRequest → Except Thrown EntryResponse :=
  fun _ => .error (.error "TypeError" "Failed to fetch")

/-! # Theorems -/

/-! ## Arithmetic of the chunk plan -/

theorem CHUNK_SIZE_eq : CHUNK_SIZE = 327680 := rfl

theorem lt_splitsOf_iff (n i : Nat) : i < splitsOf n ↔ i * CHUNK_SIZE < n := by
  unfold splitsOf
  rw [CHUNK_SIZE_eq]
  omega

theorem chunkOf_size_mid (file : File) (i : Nat) (h : i + 1 < splitsOf file.size) :
    i * CHUNK_SIZE + (chunkOf file i).size = (i + 1) * CHUNK_SIZE ∧
      (i + 1) * CHUNK_SIZE ≠ file.size := by
  have h1 := (lt_splitsOf_iff file.size (i + 1)).1 h
  simp only [chunkOf, File.slice, Chunk.size]
  rw [CHUNK_SIZE_eq] at *
  omega

theorem chunkOf_size_final (file : File) (i : Nat) (h : i + 1 = splitsOf file.size) :
    i * CHUNK_SIZE + (chunkOf file i).size = file.size := by
  have h1 := (lt_splitsOf_iff file.size i).1 (by omega)
  have h2 := (lt_splitsOf_iff file.size (i + 1)).not.1 (by omega)
  simp only [chunkOf, File.slice, Chunk.size]
  rw [CHUNK_SIZE_eq] at *
  omega

/-! ## The entry points, unfolded -/

theorem uploadFormData_eq (url : String) (formData : UploadForm) (pf : Bool)
    (fetch : Nat → Except Thrown Response) :
    uploadFormData url formData pf fetch =
      uploadLoop url formData.file formData.note pf fetch (splitsOf formData.file.size)
        (List.range (splitsOf formData.file.size)) 0 none :=
  rfl

theorem uploadFile_eq (encodeURIComponent : String → String) (file : File)
    (expirationTime : String) (note : Option String) (pf : Bool)
    (fetch : Nat → Except Thrown Response) :
    uploadFile encodeURIComponent file expirationTime note pf fetch =
      uploadFormData ("/api/entry?expiration=" ++ encodeURIComponent expirationTime)
        ⟨file, if truthyString note then note else none⟩ pf fetch :=
  rfl

theorem guestUploadFile_eq (encodeURIComponent : String → String) (file : File)
    (guestLinkID expirationTime : String) (pf : Bool) (fetch : Nat → Except Thrown Response) :
    guestUploadFile encodeURIComponent file guestLinkID expirationTime pf fetch =
      uploadFormData
        ("/api/guest/" ++ guestLinkID ++ "?expiration=" ++ encodeURIComponent expirationTime)
        ⟨file, none⟩ pf fetch :=
  rfl

/-! ## One iteration of the loop -/

theorem uploadLoop_fail (url : String) (file : File) (note : Option String) (pf : Bool)
    (fetch : Nat → Except Thrown Response) (splits i : Nat) (rest : List Nat) (uploaded : Nat)
    (id : Option Json) (resp : Response) (hf : fetch i = .ok resp) (hok : resp.ok = false) :
    uploadLoop url file note pf fetch splits (i :: rest) uploaded id =
      ⟨.error (uploadFailedError resp.statusText), [chunkRequest url file note id splits i], []⟩ := by
  simp [uploadLoop, hf, hok]

theorem uploadLoop_mid_step (url : String) (file : File) (note : Option String) (pf : Bool)
    (fetch : Nat → Except Thrown Response) (i : Nat) (rest : List Nat)
    (id : Option Json) (resp : Response) (hi : 0 < i) (hlt : i + 1 < splitsOf file.size)
    (hf : fetch i = .ok resp) (hok : resp.ok = true) :
    uploadLoop url file note pf fetch (splitsOf file.size) (i :: rest) (i * CHUNK_SIZE) id =
      (uploadLoop url file note pf fetch (splitsOf file.size) rest ((i + 1) * CHUNK_SIZE) id).after
        [chunkRequest url file note id (splitsOf file.size) i]
        (if pf then [((i + 1) * CHUNK_SIZE, file.size)] else []) := by
  obtain ⟨h1, h2⟩ := chunkOf_size_mid file i hlt
  have hpos : 0 < i * CHUNK_SIZE := Nat.mul_pos hi (by decide)
  rw [uploadLoop]
  simp only [hf, hok, h1]
  simp [hpos, h2]

theorem uploadLoop_first_step (url : String) (file : File) (note : Option String) (pf : Bool)
    (fetch : Nat → Except Thrown Response) (rest : List Nat) (id : Option Json)
    (resp : Response) (data : Json) (hlt : 1 < splitsOf file.size)
    (hf : fetch 0 = .ok resp) (hok : resp.ok = true) (hj : resp.json = .ok data)
    (hin : data.hasIn "id" = .ok true) (hne : isEmptyString (data.getProp "id") = false) :
    uploadLoop url file note pf fetch (splitsOf file.size) (0 :: rest) 0 id =
      (uploadLoop url file note pf fetch (splitsOf file.size) rest CHUNK_SIZE
        (data.getProp "id")).after
        [chunkRequest url file note id (splitsOf file.size) 0]
        (if pf then [(CHUNK_SIZE, file.size)] else []) := by
  obtain ⟨h1, h2⟩ := chunkOf_size_mid file 0 hlt
  simp only [Nat.zero_mul, Nat.zero_add, Nat.one_mul] at h1 h2
  rw [uploadLoop]
  simp only [hf, hok, h1, Nat.zero_add, Nat.zero_mul]
  simp [h2, hj, hin, hne]

theorem uploadLoop_first_missing (url : String) (file : File) (note : Option String) (pf : Bool)
    (fetch : Nat → Except Thrown Response) (rest : List Nat) (id : Option Json)
    (resp : Response) (data : Json) (hlt : 1 < splitsOf file.size)
    (hf : fetch 0 = .ok resp) (hok : resp.ok = true) (hj : resp.json = .ok data)
    (hbad : data.hasIn "id" = .ok false ∨
      (data.hasIn "id" = .ok true ∧ isEmptyString (data.getProp "id") = true)) :
    uploadLoop url file note pf fetch (splitsOf file.size) (0 :: rest) 0 id =
      ⟨.error missingIdError, [chunkRequest url file note id (splitsOf file.size) 0],
        if pf then [(CHUNK_SIZE, file.size)] else []⟩ := by
  obtain ⟨h1, h2⟩ := chunkOf_size_mid file 0 hlt
  simp only [Nat.zero_mul, Nat.zero_add, Nat.one_mul] at h1 h2
  rw [uploadLoop]
  simp only [hf, hok, h1, Nat.zero_add, Nat.zero_mul]
  rcases hbad with hin | ⟨hin, hne⟩
  · simp [h2, hj, hin]
  · simp [h2, hj, hin, hne]

theorem uploadLoop_final_step (url : String) (file : File) (note : Option String) (pf : Bool)
    (fetch : Nat → Except Thrown Response) (i : Nat) (rest : List Nat)
    (id : Option Json) (resp : Response) (data : Json) (hlast : i + 1 = splitsOf file.size)
    (hf : fetch i = .ok resp) (hok : resp.ok = true) (hj : resp.json = .ok data) :
    uploadLoop url file note pf fetch (splitsOf file.size) (i :: rest) (i * CHUNK_SIZE) id =
      ⟨.ok (some data), [chunkRequest url file note id (splitsOf file.size) i],
        if pf then [(file.size, file.size)] else []⟩ := by
  have h1 := chunkOf_size_final file i hlast
  rw [uploadLoop]
  simp only [hf, hok, h1]
  simp [hj]

/-- Chunks `i .. i + r - 1`, none of them the first or the last one, all
acknowledged: the loop sends them, reports progress, and carries on. -/
theorem uploadLoop_mid (url : String) (file : File) (note : Option String) (pf : Bool)
    (fetch : Nat → Except Thrown Response) (id : Option Json) (rest : List Nat) :
    ∀ (r i : Nat), 0 < i → i + r < splitsOf file.size →
      (∀ j, i ≤ j → j < i + r → ∃ resp, fetch j = .ok resp ∧ resp.ok = true) →
      uploadLoop url file note pf fetch (splitsOf file.size) (List.range' i r ++ rest)
          (i * CHUNK_SIZE) id =
        (uploadLoop url file note pf fetch (splitsOf file.size) rest
          ((i + r) * CHUNK_SIZE) id).after
          ((List.range' i r).map (chunkRequest url file note id (splitsOf file.size)))
          (if pf then (List.range' i r).map (fun j => ((j + 1) * CHUNK_SIZE, file.size))
            else []) := by
  intro r
  induction r with
  | zero =>
    intro i _ _ _
    cases pf <;> simp [Run.after]
  | succ r ih =>
    intro i hi hlt hall
    obtain ⟨resp, hf, hok⟩ := hall i (le_refl i) (by omega)
    have hstep := uploadLoop_mid_step url file note pf fetch i (List.range' (i + 1) r ++ rest)
      id resp hi (by omega) hf hok
    have hrec := ih (i + 1) (by omega) (by omega)
      (fun j h1 h2 => hall j (by omega) (by omega))
    rw [List.range'_succ, List.cons_append, hstep, hrec]
    have e : i + 1 + r = i + (r + 1) := by omega
    cases pf <;> simp [Run.after, e]

/-! ## The chunk plan -/

theorem splitsOf_eq_ceil (n : Nat) : splitsOf n = ⌈(n : ℚ) / (CHUNK_SIZE : ℚ)⌉₊ := by
  have hpos : (0 : ℚ) < (CHUNK_SIZE : ℚ) := by
    rw [CHUNK_SIZE_eq]
    norm_num
  refine eq_of_forall_ge_iff fun m => ?_
  rw [Nat.ceil_le, div_le_iff₀ hpos, ← not_lt, lt_splitsOf_iff, not_lt]
  norm_cast

theorem chunkPlan_length (file : File) : (chunkPlan file).length = splitsOf file.size := by
  simp [chunkPlan]

theorem chunkPlan_getElem? (file : File) (i : Nat) (h : i < splitsOf file.size) :
    (chunkPlan file)[i]? =
      some (⟨i * CHUNK_SIZE, min ((i + 1) * CHUNK_SIZE) file.size⟩,
        if i = splitsOf file.size - 1 then "1" else "0") := by
  have h1 := (lt_splitsOf_iff file.size i).1 h
  have e1 : min (i * CHUNK_SIZE) file.size = i * CHUNK_SIZE := by omega
  have e2 : i * CHUNK_SIZE + CHUNK_SIZE = (i + 1) * CHUNK_SIZE := by ring
  simp [chunkPlan, List.getElem?_range h, chunkOf, File.slice, lastFlag, e1, e2]

theorem chunkPlan_flags (file : File) (h : 0 < file.size) :
    (chunkPlan file).map Prod.snd =
      List.replicate (splitsOf file.size - 1) "0" ++ ["1"] := by
  have hs : 0 < splitsOf file.size := (lt_splitsOf_iff file.size 0).2 (by simpa using h)
  obtain ⟨k, hk⟩ : ∃ k, splitsOf file.size = k + 1 := ⟨splitsOf file.size - 1, by omega⟩
  simp only [chunkPlan, hk, List.map_map, List.range_succ, List.map_append, List.map_cons,
    List.map_nil, Nat.add_sub_cancel]
  congr 1
  · rw [List.eq_replicate_iff]
    refine ⟨by simp, ?_⟩
    intro b hb
    simp only [List.mem_map, List.mem_range, Function.comp] at hb
    obtain ⟨i, hi, rfl⟩ := hb
    simp [lastFlag, Nat.ne_of_lt hi]
  · simp [lastFlag]

theorem chunk_tiling (n b : Nat) (hb : b < n) :
    ∃! i, i < splitsOf n ∧ i * CHUNK_SIZE ≤ b ∧ b < min ((i + 1) * CHUNK_SIZE) n := by
  refine ⟨b / CHUNK_SIZE, ⟨?_, ?_, ?_⟩, ?_⟩
  · rw [lt_splitsOf_iff, CHUNK_SIZE_eq]
    omega
  · rw [CHUNK_SIZE_eq]
    omega
  · rw [CHUNK_SIZE_eq]
    omega
  · rintro j ⟨_, h2, h3⟩
    rw [CHUNK_SIZE_eq] at *
    omega


/-! ## Several iterations -/

theorem isEmptyString_of_ne (v : Json) (h : v ≠ .str "") : isEmptyString (some v) = false := by
  cases v with
  | str s =>
    have hs : s ≠ "" := fun e => h (by rw [e])
    simp [isEmptyString, hs]
  | _ => rfl

/-- The first `m` chunks, none of them the last one, all acknowledged, the
first answer carrying a usable `id`: the loop sends them in order, the first
without `id` and the others with the value of the first answer. -/
theorem uploadLoop_acked (url : String) (file : File) (note : Option String) (pf : Bool)
    (fetch : Nat → Except Thrown Response) (rest : List Nat) (m : Nat)
    (first : Response) (data : Json) (hm : 0 < m) (hlt : m < splitsOf file.size)
    (hall : ∀ j, j < m → ∃ resp, fetch j = .ok resp ∧ resp.ok = true)
    (hf : fetch 0 = .ok first) (hj : first.json = .ok data)
    (hin : data.hasIn "id" = .ok true) (hne : isEmptyString (data.getProp "id") = false) :
    uploadLoop url file note pf fetch (splitsOf file.size) (List.range m ++ rest) 0 none =
      (uploadLoop url file note pf fetch (splitsOf file.size) rest (m * CHUNK_SIZE)
        (data.getProp "id")).after
        ((List.range m).map fun i => chunkRequest url file note
          (if i = 0 then none else data.getProp "id") (splitsOf file.size) i)
        (if pf then (List.range m).map (fun j => ((j + 1) * CHUNK_SIZE, file.size)) else []) := by
  obtain ⟨k, rfl⟩ : ∃ k, m = k + 1 := ⟨m - 1, by omega⟩
  obtain ⟨r0, hr0, hok0⟩ := hall 0 hm
  have hfirst : first.ok = true := by
    rw [hf] at hr0
    cases hr0
    exact hok0
  have hstep := uploadLoop_first_step url file note pf fetch (List.range' 1 k ++ rest) none first
    data (by omega) hf hfirst hj hin hne
  have hmid := uploadLoop_mid url file note pf fetch (data.getProp "id") rest k 1 (by omega)
    (by omega) (fun j _ h2 => hall j (by omega))
  rw [Nat.one_mul] at hmid
  have hmap : (List.range' 1 k).map (fun i => chunkRequest url file note
        (if i = 0 then none else data.getProp "id") (splitsOf file.size) i) =
      (List.range' 1 k).map (chunkRequest url file note (data.getProp "id")
        (splitsOf file.size)) := by
    apply List.map_congr_left
    intro i hi
    have : i ≠ 0 := by
      rw [List.mem_range'_1] at hi
      omega
    simp [this]
  rw [List.range_eq_range', List.range'_succ, List.cons_append, hstep, hmid, List.map_cons,
    hmap]
  have e : 1 + k = k + 1 := by omega
  cases pf <;> simp [Run.after, e]

/-- Whatever the server does, the loop sends at most one request per index,
and each request is one built by `chunkRequest`. -/
theorem uploadLoop_requests (url : String) (file : File) (note : Option String) (pf : Bool)
    (fetch : Nat → Except Thrown Response) (splits : Nat) (P : ChunkRequest → Prop)
    (hP : ∀ idv i, P (chunkRequest url file note idv splits i)) :
    ∀ (is : List Nat) (uploaded : Nat) (id : Option Json),
      (uploadLoop url file note pf fetch splits is uploaded id).requests.length ≤ is.length ∧
      ∀ req ∈ (uploadLoop url file note pf fetch splits is uploaded id).requests, P req := by
  intro is
  induction is with
  | nil =>
    intro uploaded id
    simp [uploadLoop]
  | cons i rest ih =>
    intro uploaded id
    rw [uploadLoop]
    simp only []
    repeat' split
    all_goals
      first
      | exact ⟨by simp, by simpa using hP id i⟩
      | (refine ⟨by simpa [Run.after] using (ih _ _).1, ?_⟩
         intro req hmem
         simp only [Run.after, List.singleton_append, List.mem_cons] at hmem
         rcases hmem with rfl | hmem
         · exact hP id i
         · exact (ih _ _).2 req hmem)

/-! ## What a successful run must have done -/

theorem min_eq_of_mid (file : File) (i : Nat) (h : i + 1 < splitsOf file.size) :
    min ((i + 1) * CHUNK_SIZE) file.size = (i + 1) * CHUNK_SIZE := by
  have h1 := (lt_splitsOf_iff file.size (i + 1)).1 h
  omega

theorem min_eq_of_final (file : File) (i : Nat) (h : i + 1 = splitsOf file.size) :
    min ((i + 1) * CHUNK_SIZE) file.size = file.size := by
  have h2 := (lt_splitsOf_iff file.size (i + 1)).not.1 (by omega)
  omega

/-- If the loop over the indices `i .. splits - 1` returns a value, then every
one of these chunks was sent and acknowledged, and progress was reported after
each of them. -/
theorem uploadLoop_ok (url : String) (file : File) (note : Option String) (pf : Bool)
    (fetch : Nat → Except Thrown Response) :
    ∀ (r i : Nat) (id : Option Json) (v : Option Json), i + r = splitsOf file.size →
      (uploadLoop url file note pf fetch (splitsOf file.size) (List.range' i r)
        (i * CHUNK_SIZE) id).result = .ok v →
      (uploadLoop url file note pf fetch (splitsOf file.size) (List.range' i r)
        (i * CHUNK_SIZE) id).progress =
          (if pf then (List.range' i r).map
            (fun j => (min ((j + 1) * CHUNK_SIZE) file.size, file.size)) else []) ∧
      (uploadLoop url file note pf fetch (splitsOf file.size) (List.range' i r)
        (i * CHUNK_SIZE) id).requests.map (fun q => (q.file, q.last)) =
          (List.range' i r).map
            (fun j => (chunkOf file j, lastFlag (splitsOf file.size) j)) ∧
      (0 < r → v ≠ none) := by
  intro r
  induction r with
  | zero =>
    intro i id v _ _
    cases pf <;> simp [uploadLoop]
  | succ r ih =>
    intro i id v hsum hres
    rw [List.range'_succ] at hres ⊢
    cases hf : fetch i with
    | error e => simp [uploadLoop, hf] at hres
    | ok resp =>
      cases hok : resp.ok with
      | false =>
        rw [uploadLoop_fail url file note pf fetch _ i _ _ id resp hf hok] at hres
        simp at hres
      | true =>
        by_cases hfin : r = 0
        · subst hfin
          have h1 := chunkOf_size_final file i (by omega)
          cases hj : resp.json with
          | error e => simp [uploadLoop, hf, hok, hj, h1] at hres
          | ok data =>
            rw [uploadLoop_final_step url file note pf fetch i _ id resp data (by omega) hf hok
              hj] at hres ⊢
            simp only [Except.ok.injEq] at hres
            subst hres
            have hmin := min_eq_of_final file i (by omega)
            cases pf <;> simp [hmin, chunkRequest]
        · have hlt : i + 1 < splitsOf file.size := by omega
          have hmin := min_eq_of_mid file i hlt
          have hcont : ∀ idv,
              (uploadLoop url file note pf fetch (splitsOf file.size) (List.range' (i + 1) r)
                ((i + 1) * CHUNK_SIZE) idv).result = .ok v →
              ((uploadLoop url file note pf fetch (splitsOf file.size) (List.range' (i + 1) r)
                ((i + 1) * CHUNK_SIZE) idv).after [chunkRequest url file note id
                  (splitsOf file.size) i]
                (if pf then [((i + 1) * CHUNK_SIZE, file.size)] else [])).progress =
                (if pf then (i :: List.range' (i + 1) r).map
                  (fun j => (min ((j + 1) * CHUNK_SIZE) file.size, file.size)) else []) ∧
              ((uploadLoop url file note pf fetch (splitsOf file.size) (List.range' (i + 1) r)
                ((i + 1) * CHUNK_SIZE) idv).after [chunkRequest url file note id
                  (splitsOf file.size) i]
                (if pf then [((i + 1) * CHUNK_SIZE, file.size)] else [])).requests.map
                  (fun q => (q.file, q.last)) = (i :: List.range' (i + 1) r).map
                    (fun j => (chunkOf file j, lastFlag (splitsOf file.size) j)) ∧
              (0 < r + 1 → v ≠ none) := by
            intro idv hr
            obtain ⟨ih1, ih2, ih3⟩ := ih (i + 1) idv v (by omega) hr
            refine ⟨?_, ?_, fun _ => ih3 (by omega)⟩
            · cases pf <;> simp_all [Run.after]
            · simp [Run.after, ih2, chunkRequest]
          by_cases hi : 0 < i
          · rw [uploadLoop_mid_step url file note pf fetch i _ id resp hi hlt hf hok] at hres ⊢
            exact hcont id hres
          · have hi0 : i = 0 := by omega
            subst hi0
            obtain ⟨h1, h2⟩ := chunkOf_size_mid file 0 hlt
            simp only [Nat.zero_mul, Nat.zero_add, Nat.one_mul] at h1 h2
            cases hj : resp.json with
            | error e => simp [uploadLoop, hf, hok, hj] at hres
            | ok data =>
              cases hin : data.hasIn "id" with
              | error f => simp [uploadLoop, hf, hok, hj, hin, h1, h2] at hres
              | ok b =>
                cases b with
                | false => simp [uploadLoop, hf, hok, hj, hin, h1, h2] at hres
                | true =>
                  cases hne : isEmptyString (data.getProp "id") with
                  | true => simp [uploadLoop, hf, hok, hj, hin, h1, h2, hne] at hres
                  | false =>
                    have hstep := uploadLoop_first_step url file note pf fetch
                      (List.range' (0 + 1) r) id resp data hlt hf hok hj hin hne
                    simp only [Nat.zero_mul] at hres ⊢
                    rw [hstep] at hres ⊢
                    have := hcont (data.getProp "id")
                    simp only [Nat.zero_add, Nat.one_mul] at this
                    exact this hres

/-- The slices of the requests of a run that returns. -/
theorem uploadFormData_ok_requests (url : String) (formData : UploadForm) (pf : Bool)
    (fetch : Nat → Except Thrown Response) (v : Option Json)
    (hres : (uploadFormData url formData pf fetch).result = .ok v) :
    (uploadFormData url formData pf fetch).requests.map (fun q => (q.file, q.last)) =
      chunkPlan formData.file ∧
    (uploadFormData url formData pf fetch).progress =
      (if pf then (List.range (splitsOf formData.file.size)).map
        (fun j => (min ((j + 1) * CHUNK_SIZE) formData.file.size, formData.file.size))
      else []) := by
  have hrun : uploadFormData url formData pf fetch =
      uploadLoop url formData.file formData.note pf fetch (splitsOf formData.file.size)
        (List.range' 0 (splitsOf formData.file.size)) (0 * CHUNK_SIZE) none := by
    rw [Nat.zero_mul, ← List.range_eq_range', uploadFormData_eq]
  rw [hrun] at hres
  obtain ⟨hp, hq, _⟩ := uploadLoop_ok url formData.file formData.note pf fetch
    (splitsOf formData.file.size) 0 none v (by omega) hres
  rw [← hrun, ← List.range_eq_range'] at hp hq
  exact ⟨hq, hp⟩

theorem uploadFormData_ok_files (url : String) (formData : UploadForm) (pf : Bool)
    (fetch : Nat → Except Thrown Response) (v : Option Json)
    (hres : (uploadFormData url formData pf fetch).result = .ok v) :
    (uploadFormData url formData pf fetch).requests.map (fun q => q.file) =
      (List.range (splitsOf formData.file.size)).map (chunkOf formData.file) := by
  have h := congrArg (List.map Prod.fst)
    (uploadFormData_ok_requests url formData pf fetch v hres).1
  simpa [chunkPlan, List.map_map, Function.comp_def] using h

/-- C1: for every file size `n`, with `CHUNK_SIZE = 327680`, the chunk plan of
`uploadFormData` has exactly `ceil(n / CHUNK_SIZE)` chunks; chunk `i` covers
the bytes `[i * CHUNK_SIZE, min((i + 1) * CHUNK_SIZE, n))`; each range is
non-empty and lies inside the file; every byte of `[0, n)` lies in exactly one
range; and when `n > 0` the `last` flags are `"0"` for all chunks but the one
with the highest index, which has `"1"`; and in every call of `uploadFormData`
that returns, the requests sent carry exactly the slices and `last` flags of
the plan, in order. -/
theorem chunkPlan_spec (file : File) :
    CHUNK_SIZE = 327680 ∧
    (chunkPlan file).length = ⌈(file.size : ℚ) / (CHUNK_SIZE : ℚ)⌉₊ ∧
    (∀ i, i < (chunkPlan file).length →
      (chunkPlan file)[i]? =
        some (⟨i * CHUNK_SIZE, min ((i + 1) * CHUNK_SIZE) file.size⟩,
          if i = (chunkPlan file).length - 1 then "1" else "0") ∧
      i * CHUNK_SIZE < min ((i + 1) * CHUNK_SIZE) file.size ∧
      min ((i + 1) * CHUNK_SIZE) file.size ≤ file.size) ∧
    (∀ b, b < file.size →
      ∃! i, i < (chunkPlan file).length ∧
        i * CHUNK_SIZE ≤ b ∧ b < min ((i + 1) * CHUNK_SIZE) file.size) ∧
    (0 < file.size →
      (chunkPlan file).map Prod.snd =
        List.replicate ((chunkPlan file).length - 1) "0" ++ ["1"]) ∧
    (∀ (url : String) (note : Option String) (pf : Bool)
        (fetch : Nat → Except Thrown Response) (v : Option Json),
      (uploadFormData url ⟨file, note⟩ pf fetch).result = .ok v →
      (uploadFormData url ⟨file, note⟩ pf fetch).requests.map (fun q => (q.file, q.last)) =
        chunkPlan file) := by
  rw [chunkPlan_length]
  refine ⟨rfl, splitsOf_eq_ceil _, ?_, fun b hb => chunk_tiling _ b hb, chunkPlan_flags file,
    fun url note pf fetch v hv => (uploadFormData_ok_requests url ⟨file, note⟩ pf fetch v hv).1⟩
  intro i hi
  refine ⟨chunkPlan_getElem? file i hi, ?_, Nat.min_le_right _ _⟩
  have h1 := (lt_splitsOf_iff file.size i).1 hi
  rw [CHUNK_SIZE_eq] at *
  omega

/-- Instance of the preceding theorem: a file of `CHUNK_SIZE + 1` bytes. -/
theorem chunkPlan_spec_witness :
    chunkPlan ⟨327681, "a.bin", "application/octet-stream"⟩ =
      [(⟨0, 327680⟩, "0"), (⟨327680, 327681⟩, "1")] ∧
    (chunkPlan ⟨327681, "a.bin", "application/octet-stream"⟩).map Prod.snd =
      List.replicate
        ((chunkPlan ⟨327681, "a.bin", "application/octet-stream"⟩).length - 1) "0" ++ ["1"] :=
  ⟨rfl, (chunkPlan_spec ⟨327681, "a.bin", "application/octet-stream"⟩).2.2.2.2.1 (by decide)⟩

/-! ## The chunked upload as a whole -/

/-- A run in which the server acknowledges every chunk, gives a usable `id`
with the first answer and a JSON body with the last one (at least two chunks). -/
theorem uploadFormData_acked (url : String) (formData : UploadForm) (pf : Bool)
    (fetch : Nat → Except Thrown Response) (first final : Response) (data result : Json)
    (h2 : 2 ≤ splitsOf formData.file.size)
    (hall : ∀ i, i < splitsOf formData.file.size → ∃ resp, fetch i = .ok resp ∧ resp.ok = true)
    (hfirst : fetch 0 = .ok first) (hjson : first.json = .ok data)
    (hin : data.hasIn "id" = .ok true) (hne : isEmptyString (data.getProp "id") = false)
    (hfinal : fetch (splitsOf formData.file.size - 1) = .ok final)
    (hres : final.json = .ok result) :
    uploadFormData url formData pf fetch =
      ⟨.ok (some result),
        (List.range (splitsOf formData.file.size)).map (fun i =>
          chunkRequest url formData.file formData.note
            (if i = 0 then none else data.getProp "id") (splitsOf formData.file.size) i),
        if pf then (List.range (splitsOf formData.file.size)).map
          (fun j => (min ((j + 1) * CHUNK_SIZE) formData.file.size, formData.file.size))
        else []⟩ := by
  obtain ⟨m, hm⟩ : ∃ m, splitsOf formData.file.size = m + 1 :=
    ⟨splitsOf formData.file.size - 1, by omega⟩
  obtain ⟨rf, hrf, hokf⟩ := hall m (by omega)
  have hfin : final.ok = true := by
    rw [hm, Nat.add_sub_cancel, hrf] at hfinal
    cases hfinal
    exact hokf
  rw [hm, Nat.add_sub_cancel] at hfinal
  have hacked := uploadLoop_acked url formData.file formData.note pf fetch [m] m first data
    (by omega) (by omega) (fun j hj => hall j (by omega)) hfirst hjson hin hne
  have hlast := uploadLoop_final_step url formData.file formData.note pf fetch m []
    (data.getProp "id") final result hm.symm hfinal hfin hres
  have hm0 : m ≠ 0 := by omega
  have hmin : min ((m + 1) * CHUNK_SIZE) formData.file.size = formData.file.size :=
    min_eq_of_final formData.file m hm.symm
  have hmap : (List.range m).map
        (fun j => (min ((j + 1) * CHUNK_SIZE) formData.file.size, formData.file.size)) =
      (List.range m).map (fun j => ((j + 1) * CHUNK_SIZE, formData.file.size)) := by
    apply List.map_congr_left
    intro j hj
    rw [List.mem_range] at hj
    rw [min_eq_of_mid formData.file j (by omega)]
  rw [uploadFormData_eq]
  have hr : List.range (splitsOf formData.file.size) = List.range m ++ [m] := by
    rw [hm, List.range_succ]
  rw [hr, hacked, hlast]
  cases pf <;> simp [Run.after, hm0, hmin, hmap]

/-- C2: for every file spanning `k >= 2` chunks and every server that answers
each chunk with a success status and the first chunk with a JSON body whose
`id` is a non-empty string `s`, `uploadFormData` sends exactly `k` requests,
in index order (request `i` carries slice `i` of the file); the first request
has no `id` field and every later one carries `id = s`; and the value returned
is the parsed JSON body of the `k`-th response, whatever it is. -/
theorem uploadFormData_chunked (url : String) (formData : UploadForm) (pf : Bool)
    (fetch : Nat → Except Thrown Response) (k : Nat) (s : String)
    (fields : List (String × Json)) (first final : Response) (result : Json)
    (hk : splitsOf formData.file.size = k) (h2 : 2 ≤ k)
    (hall : ∀ i, i < k → ∃ resp, fetch i = .ok resp ∧ resp.ok = true)
    (hfirst : fetch 0 = .ok first) (hjson : first.json = .ok (.obj fields))
    (hid : fields.lookup "id" = some (.str s)) (hs : s ≠ "")
    (hfinal : fetch (k - 1) = .ok final) (hres : final.json = .ok result) :
    (uploadFormData url formData pf fetch).requests.length = k ∧
    (uploadFormData url formData pf fetch).requests.map (fun q => q.file) =
      (List.range k).map (chunkOf formData.file) ∧
    (uploadFormData url formData pf fetch).requests.map (fun q => q.id) =
      none :: List.replicate (k - 1) (some (.str s)) ∧
    (uploadFormData url formData pf fetch).requests =
      (List.range k).map (fun i => chunkRequest url formData.file formData.note
        (if i = 0 then none else some (.str s)) k i) ∧
    (uploadFormData url formData pf fetch).result = .ok (some result) := by
  subst hk
  have hin : (Json.obj fields).hasIn "id" = .ok true := by simp [Json.hasIn, hid]
  have hget : (Json.obj fields).getProp "id" = some (.str s) := by simp [Json.getProp, hid]
  have hne : isEmptyString ((Json.obj fields).getProp "id") = false := by
    simp [hget, isEmptyString, hs]
  rw [uploadFormData_acked url formData pf fetch first final (.obj fields) result h2 hall hfirst
    hjson hin hne hfinal hres, hget]
  refine ⟨by simp, by simp [chunkRequest, Function.comp_def], ?_, rfl, rfl⟩
  obtain ⟨m, hm⟩ : ∃ m, splitsOf formData.file.size = m + 1 :=
    ⟨splitsOf formData.file.size - 1, by omega⟩
  simp only [hm, List.range_succ_eq_map, List.map_cons, List.map_map, Nat.add_sub_cancel]
  congr 1
  rw [List.eq_replicate_iff]
  refine ⟨by simp, ?_⟩
  intro b hb
  simp only [List.mem_map, List.mem_range, Function.comp] at hb
  obtain ⟨i, _, rfl⟩ := hb
  simp [chunkRequest, truthyValue, Json.truthy, hs]

/-- Instance of the preceding theorem: three chunks, every answer
`sampleRecord`. -/
theorem uploadFormData_chunked_witness :
    (uploadFormData "/api/entry?expiration=x" ⟨sampleFile 655361, none⟩ true ackServer).result =
      .ok (some sampleRecord) ∧
    (uploadFormData "/api/entry?expiration=x" ⟨sampleFile 655361, none⟩ true
      ackServer).requests.map (fun q => q.id) = [none, some (.str "abc"), some (.str "abc")] :=
  have h := uploadFormData_chunked "/api/entry?expiration=x" ⟨sampleFile 655361, none⟩ true
    ackServer 3 "abc" [("id", .str "abc")] ⟨true, "OK", .ok sampleRecord⟩
    ⟨true, "OK", .ok sampleRecord⟩ sampleRecord rfl (by decide) (fun _ _ => ⟨_, rfl, rfl⟩)
    rfl rfl rfl (by decide) rfl rfl
  ⟨h.2.2.2.2, h.2.2.1⟩

/-- C3, as stated, fails: with three chunks, the answer to chunk 1 (a
non-final chunk) is a success with a JSON object that has no `id`; the upload
is not rejected, chunk 2 is still sent, and its answer is returned. -/
theorem uploadFormData_missing_id_on_second_ignored :
    splitsOf (sampleFile 655361).size = 3 ∧
    noIdOnSecondServer 1 = .ok ⟨true, "OK", .ok (.obj [])⟩ ∧
    (uploadFormData "/api/entry?expiration=x" ⟨sampleFile 655361, none⟩ true
      noIdOnSecondServer).result = .ok (some sampleRecord) ∧
    (uploadFormData "/api/entry?expiration=x" ⟨sampleFile 655361, none⟩ true
      noIdOnSecondServer).requests.length = 3 :=
  ⟨rfl, rfl, rfl, rfl⟩

/-- C3 (amended): for every file spanning at least two chunks, if the server
answers the first chunk with a success status and a JSON object or array that
has no `id` field, or a JSON object whose `id` is the empty string, then
`uploadFormData` rejects with the error "Missing expected id field", and the
request for the first chunk is the only one sent. -/
theorem uploadFormData_first_missing_id (url : String) (formData : UploadForm) (pf : Bool)
    (fetch : Nat → Except Thrown Response) (resp : Response) (data : Json)
    (h2 : 2 ≤ splitsOf formData.file.size)
    (hf : fetch 0 = .ok resp) (hok : resp.ok = true) (hj : resp.json = .ok data)
    (hid : (∃ fields, data = .obj fields ∧
        (fields.lookup "id" = none ∨ fields.lookup "id" = some (.str ""))) ∨
      ∃ items, data = .arr items) :
    (uploadFormData url formData pf fetch).result =
      .error (.thrown (.error "Error" "Missing expected id field")) ∧
    (uploadFormData url formData pf fetch).requests =
      [chunkRequest url formData.file formData.note none (splitsOf formData.file.size) 0] := by
  obtain ⟨m, hm⟩ : ∃ m, splitsOf formData.file.size = m + 1 :=
    ⟨splitsOf formData.file.size - 1, by omega⟩
  have hr : List.range (splitsOf formData.file.size) = 0 :: List.range' 1 m := by
    rw [hm, List.range_eq_range', List.range'_succ]
  have hbad : data.hasIn "id" = .ok false ∨
      (data.hasIn "id" = .ok true ∧ isEmptyString (data.getProp "id") = true) := by
    rcases hid with ⟨fields, rfl, hid | hid⟩ | ⟨items, rfl⟩
    · exact Or.inl (by simp [Json.hasIn, hid])
    · exact Or.inr ⟨by simp [Json.hasIn, hid], by simp [Json.getProp, hid, isEmptyString]⟩
    · exact Or.inl rfl
  have hstep := uploadLoop_first_missing url formData.file formData.note pf fetch
    (List.range' 1 m) none resp data (by omega) hf hok hj hbad
  rw [uploadFormData_eq, hr, hstep]
  exact ⟨rfl, rfl⟩

/-- Instance of the preceding theorem: two chunks, first answer
without `id`. -/
theorem uploadFormData_first_missing_id_witness :
    (uploadFormData "/api/entry?expiration=x" ⟨sampleFile 327681, none⟩ true noIdServer).result =
      .error (.thrown (.error "Error" "Missing expected id field")) ∧
    (uploadFormData "/api/entry?expiration=x" ⟨sampleFile 327681, none⟩ true
      noIdServer).requests.length = 1 :=
  have h := uploadFormData_first_missing_id "/api/entry?expiration=x"
    ⟨sampleFile 327681, none⟩ true noIdServer ⟨true, "OK", .ok (.obj [("size", .num 3)])⟩
    (.obj [("size", .num 3)]) (by decide) rfl rfl rfl (Or.inl ⟨_, rfl, Or.inl rfl⟩)
  ⟨h.1, by rw [h.2]; rfl⟩

/-- The indices of the loop, split at index `i`. -/
theorem range_split (k i : Nat) (h : i < k) :
    List.range k = List.range i ++ i :: List.range' (i + 1) (k - i - 1) := by
  have e : k = (k - i - 1 + 1) + i := by omega
  rw [List.range_eq_range', List.range_eq_range', ← List.range'_succ]
  conv_lhs => rw [e, ← List.range'_append_1]
  simp

/-- C4: for every chunk index `i` of a (non-empty) file, if the answers to
chunks `0 .. i-1` are successful, the first of them carrying an `id` other
than the empty string, and the answer to chunk `i` has a non-success status
with status text `t`, then `uploadFormData` rejects with an `Error` whose
message is "Upload failed: " followed by `t`; exactly the requests for chunks
`0 .. i` have been sent, in order, and none after; and the progress callback
has been invoked exactly `i` times. -/
theorem uploadFormData_failed_status (url : String) (formData : UploadForm) (pf : Bool)
    (fetch : Nat → Except Thrown Response) (i : Nat) (resp : Response) (t : String)
    (hi : i < splitsOf formData.file.size)
    (hall : ∀ j, j < i → ∃ r, fetch j = .ok r ∧ r.ok = true)
    (hfirst : 0 < i → ∃ r fields v, fetch 0 = .ok r ∧ r.json = .ok (.obj fields) ∧
      fields.lookup "id" = some v ∧ v ≠ .str "")
    (hf : fetch i = .ok resp) (hok : resp.ok = false) (ht : resp.statusText = t) :
    (uploadFormData url formData pf fetch).result =
      .error (.thrown (.error "Error" ("Upload failed: " ++ t))) ∧
    (uploadFormData url formData pf fetch).requests.length = i + 1 ∧
    (uploadFormData url formData pf fetch).requests.map (fun q => q.file) =
      (List.range (i + 1)).map (chunkOf formData.file) ∧
    (uploadFormData url formData pf fetch).progress.length = (if pf then i else 0) := by
  subst ht
  rw [uploadFormData_eq]
  rw [range_split _ i hi]
  by_cases h0 : i = 0
  · subst h0
    rw [List.range_zero, List.nil_append, uploadLoop_fail url formData.file formData.note pf fetch
      _ 0 _ 0 none resp hf hok]
    cases pf <;> simp [uploadFailedError, chunkRequest, List.range_succ]
  · obtain ⟨r, fields, v, hr, hj, hid, hv⟩ := hfirst (by omega)
    have hin : (Json.obj fields).hasIn "id" = .ok true := by simp [Json.hasIn, hid]
    have hne : isEmptyString ((Json.obj fields).getProp "id") = false := by
      simp only [Json.getProp, hid]
      exact isEmptyString_of_ne v hv
    rw [uploadLoop_acked url formData.file formData.note pf fetch _ i r (.obj fields)
      (by omega) hi hall hr hj hin hne,
      uploadLoop_fail url formData.file formData.note pf fetch _ i _ _ _ resp hf hok]
    cases pf <;>
      simp [Run.after, uploadFailedError, chunkRequest, List.range_succ, Function.comp_def]

/-- Instance of the preceding theorem: three chunks, the third
answered with status 500. -/
theorem uploadFormData_failed_status_witness :
    (uploadFormData "/api/entry?expiration=x" ⟨sampleFile 655361, none⟩ true
      failOnThirdServer).result =
        .error (.thrown (.error "Error" "Upload failed: Internal Server Error")) ∧
    (uploadFormData "/api/entry?expiration=x" ⟨sampleFile 655361, none⟩ true
      failOnThirdServer).requests.length = 3 ∧
    (uploadFormData "/api/entry?expiration=x" ⟨sampleFile 655361, none⟩ true
      failOnThirdServer).progress.length = 2 :=
  have h := uploadFormData_failed_status "/api/entry?expiration=x" ⟨sampleFile 655361, none⟩
    true failOnThirdServer 2 ⟨false, "Internal Server Error", .ok .null⟩
    "Internal Server Error" (by decide)
    (fun j hj => ⟨⟨true, "OK", .ok sampleRecord⟩, by interval_cases j <;> rfl, rfl⟩)
    (fun _ => ⟨⟨true, "OK", .ok sampleRecord⟩, [("id", .str "abc")], .str "abc", rfl, rfl, rfl,
      by simp⟩)
    rfl rfl rfl
  ⟨h.1, h.2.1, h.2.2.2⟩

/-- The sizes of the first `m` slices add up to the bytes before offset
`m * CHUNK_SIZE`. -/
theorem sum_chunk_sizes (file : File) (m : Nat) :
    ((List.range m).map (fun t => (chunkOf file t).size)).sum =
      min (m * CHUNK_SIZE) file.size := by
  induction m with
  | zero => simp
  | succ m ih =>
    rw [List.range_succ, List.map_append, List.sum_append, ih]
    simp only [chunkOf, File.slice, Chunk.size, List.map_cons, List.map_nil, List.sum_cons,
      List.sum_nil]
    rw [CHUNK_SIZE_eq]
    omega

/-- C5: for every file of size `n` whose chunked upload succeeds (the call
returns), with a progress callback supplied: the callback is invoked once per
chunk, `ceil(n / CHUNK_SIZE)` times in total; the second argument is always
`n`; the first arguments are strictly increasing; the first argument of the
invocation after chunk `j` is the sum of the sizes of the chunks `0 .. j` sent
and acknowledged so far; and the first argument equals `n` on the last
invocation and on no earlier one. -/
theorem uploadFormData_progress (url : String) (formData : UploadForm)
    (fetch : Nat → Except Thrown Response) (v : Option Json)
    (hres : (uploadFormData url formData true fetch).result = .ok v) :
    (uploadFormData url formData true fetch).progress.length =
      ⌈(formData.file.size : ℚ) / (CHUNK_SIZE : ℚ)⌉₊ ∧
    (uploadFormData url formData true fetch).requests.length =
      (uploadFormData url formData true fetch).progress.length ∧
    (∀ p ∈ (uploadFormData url formData true fetch).progress, p.2 = formData.file.size) ∧
    ((uploadFormData url formData true fetch).progress.map Prod.fst).Pairwise (· < ·) ∧
    (∀ j, j < (uploadFormData url formData true fetch).progress.length →
      ((uploadFormData url formData true fetch).progress[j]?).map Prod.fst =
        some ((((uploadFormData url formData true fetch).requests.take (j + 1)).map
          (fun q => q.file.size)).sum)) ∧
    (∀ j, j < (uploadFormData url formData true fetch).progress.length →
      (((uploadFormData url formData true fetch).progress[j]?).map Prod.fst =
          some formData.file.size ↔
        j + 1 = (uploadFormData url formData true fetch).progress.length)) := by
  have hp := (uploadFormData_ok_requests url formData true fetch v hres).2
  have hq := uploadFormData_ok_files url formData true fetch v hres
  simp only [if_true] at hp
  have hlen : (uploadFormData url formData true fetch).requests.length =
      splitsOf formData.file.size := by
    have := congrArg List.length hq
    simpa using this
  have hsizes : (uploadFormData url formData true fetch).requests.map (fun q => q.file.size) =
      (List.range (splitsOf formData.file.size)).map (fun t => (chunkOf formData.file t).size) := by
    have := congrArg (List.map Chunk.size) hq
    simpa [List.map_map, Function.comp_def] using this
  rw [hp]
  refine ⟨by simp [splitsOf_eq_ceil], by simp [hlen], by simp, ?_, ?_, ?_⟩
  · rw [List.map_map, List.pairwise_map]
    refine (List.pairwise_lt_range _).imp_of_mem ?_
    intro a b _ hb hab
    rw [List.mem_range] at hb
    have h1 := (lt_splitsOf_iff formData.file.size b).1 hb
    simp only [Function.comp]
    rw [CHUNK_SIZE_eq] at *
    omega
  · intro j hj
    simp only [List.length_map, List.length_range] at hj
    rw [List.map_take, hsizes, ← List.map_take, List.take_range, sum_chunk_sizes,
      List.getElem?_map, List.getElem?_range hj]
    have : min (j + 1) (splitsOf formData.file.size) = j + 1 := by omega
    simp [this]
  · intro j hj
    simp only [List.length_map, List.length_range] at hj ⊢
    rw [List.getElem?_map, List.getElem?_range hj]
    simp only [Option.map_some', Option.some.injEq]
    have h1 := (lt_splitsOf_iff formData.file.size j).1 hj
    constructor
    · intro h
      have h2 := (lt_splitsOf_iff formData.file.size (j + 1)).not.2 (by omega)
      omega
    · intro h
      exact min_eq_of_final formData.file j h

/-- Instance of the preceding theorem: two chunks. -/
theorem uploadFormData_progress_witness :
    (uploadFormData "/api/entry?expiration=x" ⟨sampleFile 327681, none⟩ true
      ackServer).progress = [(327680, 327681), (327681, 327681)] ∧
    (uploadFormData "/api/entry?expiration=x" ⟨sampleFile 327681, none⟩ true
      ackServer).progress.length = ⌈((327681 : Nat) : ℚ) / (CHUNK_SIZE : ℚ)⌉₊ :=
  ⟨rfl, (uploadFormData_progress "/api/entry?expiration=x" ⟨sampleFile 327681, none⟩ ackServer
    (some sampleRecord) rfl).1⟩

/-- A loop over a single index sends exactly the request for that index,
whatever the server answers. -/
theorem uploadLoop_single (url : String) (file : File) (note : Option String) (pf : Bool)
    (fetch : Nat → Except Thrown Response) (splits i uploaded : Nat) (id : Option Json) :
    (uploadLoop url file note pf fetch splits [i] uploaded id).requests =
      [chunkRequest url file note id splits i] := by
  rw [uploadLoop]
  simp only []
  repeat' split
  all_goals simp [Run.after, uploadLoop]

theorem splitsOf_eq_one (n : Nat) (hpos : 0 < n) (hle : n ≤ CHUNK_SIZE) : splitsOf n = 1 := by
  unfold splitsOf
  rw [CHUNK_SIZE_eq] at *
  omega

theorem chunkOf_whole (file : File) (hle : file.size ≤ CHUNK_SIZE) :
    chunkOf file 0 = ⟨0, file.size⟩ := by
  simp [chunkOf, File.slice, hle]

/-- C6, as stated, fails: a guest upload of a file of `CHUNK_SIZE + 1` bytes
is sent in two requests, one per chunk, not as a whole in one request. -/
theorem guestUploadFile_two_requests :
    (guestUploadFile (fun s => s) (sampleFile 327681) "g1" "never" true ackServer).requests.map
      (fun q => q.file) = [⟨0, 327680⟩, ⟨327680, 327681⟩] ∧
    (guestUploadFile (fun s => s) (sampleFile 327681) "g1" "never" true
      ackServer).requests.length = 2 :=
  ⟨rfl, rfl⟩

/-- C6 (amended): for every file, `guestUploadFile` uses the chunked transport
`uploadFormData`: every request it sends is a POST to
`/api/guest/{guestLinkID}?expiration={urlEncoded expiration}`, carries no note
field and holds a slice of at most `CHUNK_SIZE` bytes; it never sends more
than `ceil(n / CHUNK_SIZE)` requests, and sends exactly that many, one per
chunk in order, when the upload returns; a non-empty file of at most
`CHUNK_SIZE` bytes is sent whole in exactly one request. -/
theorem guestUploadFile_chunked (encodeURIComponent : String → String) (file : File)
    (guestLinkID expirationTime : String) (pf : Bool) (fetch : Nat → Except Thrown Response) :
    (∀ req ∈ (guestUploadFile encodeURIComponent file guestLinkID expirationTime pf
        fetch).requests,
      req.method = "POST" ∧
      req.url = "/api/guest/" ++ guestLinkID ++ "?expiration=" ++
        encodeURIComponent expirationTime ∧
      req.note = none ∧ req.file.size ≤ CHUNK_SIZE) ∧
    (guestUploadFile encodeURIComponent file guestLinkID expirationTime pf
      fetch).requests.length ≤ ⌈(file.size : ℚ) / (CHUNK_SIZE : ℚ)⌉₊ ∧
    (∀ v, (guestUploadFile encodeURIComponent file guestLinkID expirationTime pf
        fetch).result = .ok v →
      (guestUploadFile encodeURIComponent file guestLinkID expirationTime pf
        fetch).requests.map (fun q => q.file) =
        (List.range ⌈(file.size : ℚ) / (CHUNK_SIZE : ℚ)⌉₊).map (chunkOf file)) ∧
    (0 < file.size → file.size ≤ CHUNK_SIZE →
      (guestUploadFile encodeURIComponent file guestLinkID expirationTime pf
        fetch).requests.map (fun q => q.file) = [⟨0, file.size⟩]) := by
  rw [← splitsOf_eq_ceil]
  rw [guestUploadFile_eq, uploadFormData_eq]
  refine ⟨?_, ?_, ?_, ?_⟩
  · refine (uploadLoop_requests _ file none pf fetch _ _ ?_ _ 0 none).2
    intro idv i
    refine ⟨rfl, rfl, by simp [chunkRequest, truthyString], ?_⟩
    simp only [chunkRequest, chunkOf, File.slice, Chunk.size]
    omega
  · have h := (uploadLoop_requests ("/api/guest/" ++ guestLinkID ++ "?expiration=" ++
      encodeURIComponent expirationTime) file none pf fetch (splitsOf file.size)
      (fun _ => True) (fun _ _ => trivial) (List.range (splitsOf file.size)) 0 none).1
    simpa using h
  · intro v hv
    rw [← uploadFormData_eq] at hv ⊢
    exact uploadFormData_ok_files _ ⟨file, none⟩ pf fetch v hv
  · intro hpos hle
    rw [splitsOf_eq_one file.size hpos hle]
    have hr : List.range 1 = [0] := rfl
    rw [hr, uploadLoop_single]
    simp [chunkRequest, chunkOf_whole file hle]

/-- Instance of the preceding theorem: a guest upload of a small file. -/
theorem guestUploadFile_chunked_witness :
    (guestUploadFile (fun s => s) (sampleFile 1000) "g1" "never" true ackServer).requests.map
      (fun q => q.file) = [⟨0, 1000⟩] :=
  (guestUploadFile_chunked (fun s => s) (sampleFile 1000) "g1" "never" true ackServer).2.2.2
    (by decide) (by decide)

/-- C7: for every file of size `n` with `0 < n <= CHUNK_SIZE` and every server
that answers with a success status and any JSON body, `uploadFormData` sends
exactly one request, holding the whole file, with `last = "1"` and without
`id` field, and returns the parsed body of the answer. -/
theorem uploadFormData_single_chunk (url : String) (formData : UploadForm) (pf : Bool)
    (fetch : Nat → Except Thrown Response) (resp : Response) (data : Json)
    (hpos : 0 < formData.file.size) (hle : formData.file.size ≤ CHUNK_SIZE)
    (hf : fetch 0 = .ok resp) (hok : resp.ok = true) (hj : resp.json = .ok data) :
    ∃ req, (uploadFormData url formData pf fetch).requests = [req] ∧
      req.last = "1" ∧ req.id = none ∧ req.file = ⟨0, formData.file.size⟩ ∧
      (uploadFormData url formData pf fetch).result = .ok (some data) := by
  have hs := splitsOf_eq_one formData.file.size hpos hle
  have hstep := uploadLoop_final_step url formData.file formData.note pf fetch 0 [] none resp
    data (by omega) hf hok hj
  have hr : List.range 1 = [0] := rfl
  rw [Nat.zero_mul, hs] at hstep
  refine ⟨chunkRequest url formData.file formData.note none 1 0, ?_, rfl, rfl,
    chunkOf_whole formData.file hle, ?_⟩
  · rw [uploadFormData_eq, hs, hr, hstep]
  · rw [uploadFormData_eq, hs, hr, hstep]

/-- Instance of the preceding theorem: a small file, an answer
without `id`. -/
theorem uploadFormData_single_chunk_witness :
    ∃ req, (uploadFormData "/api/entry?expiration=x" ⟨sampleFile 1000, none⟩ true
        noIdServer).requests = [req] ∧
      req.last = "1" ∧ req.id = none ∧ req.file = ⟨0, 1000⟩ ∧
      (uploadFormData "/api/entry?expiration=x" ⟨sampleFile 1000, none⟩ true
        noIdServer).result = .ok (some (.obj [("size", .num 3)])) :=
  uploadFormData_single_chunk "/api/entry?expiration=x" ⟨sampleFile 1000, none⟩ true noIdServer
    ⟨true, "OK", .ok (.obj [("size", .num 3)])⟩ (.obj [("size", .num 3)]) (by decide) (by decide)
    rfl rfl rfl

/-- C8: for a file of size 0, `uploadFormData`, and so `uploadFile`, sends no
request, never invokes the progress callback, raises no error, and completes
with no result (`undefined`). -/
theorem uploadFormData_empty_file (encodeURIComponent : String → String) (url : String)
    (file : File) (expirationTime : String) (note : Option String) (pf : Bool)
    (fetch : Nat → Except Thrown Response) (h : file.size = 0) :
    (uploadFormData url ⟨file, note⟩ pf fetch).result = .ok none ∧
    (uploadFormData url ⟨file, note⟩ pf fetch).requests = [] ∧
    (uploadFormData url ⟨file, note⟩ pf fetch).progress = [] ∧
    (uploadFile encodeURIComponent file expirationTime note pf fetch).result = .ok none ∧
    (uploadFile encodeURIComponent file expirationTime note pf fetch).requests = [] ∧
    (uploadFile encodeURIComponent file expirationTime note pf fetch).progress = [] := by
  have hs : splitsOf file.size = 0 := by
    rw [h]
    rfl
  rw [uploadFile_eq, uploadFormData_eq, uploadFormData_eq]
  simp [hs, uploadLoop]

/-- Instance of the preceding theorem: an empty file. -/
theorem uploadFormData_empty_file_witness :
    (uploadFile (fun s => s) (sampleFile 0) "never" (some "hello") true ackServer).result =
      .ok none ∧
    (uploadFile (fun s => s) (sampleFile 0) "never" (some "hello") true ackServer).requests =
      [] :=
  have h := uploadFormData_empty_file (fun s => s) "/api/entry" (sampleFile 0) "never"
    (some "hello") true ackServer rfl
  ⟨h.2.2.2.1, h.2.2.2.2.1⟩

/-! ## The metadata calls -/

/-- How the promise chain of `editFile` / `deleteFile` settles, by outcome of
the request. -/
theorem settleEntry_cases :
    (∀ resp : EntryResponse, resp.ok = true → settleEntry (.ok resp) = .ok ()) ∧
    (∀ (resp : EntryResponse) (body : String), resp.ok = false → resp.text = .ok body →
      settleEntry (.ok resp) = .error (.str body)) ∧
    (∀ name m : String, m ≠ "" →
      settleEntry (.error (.error name m)) =
        .error (.str ("Failed to communicate with server: " ++ m))) := by
  refine ⟨?_, ?_, ?_⟩
  · intro resp hok
    simp [settleEntry, Except.bind, thenHandler, hok]
  · intro resp body hok ht
    simp [settleEntry, Except.bind, thenHandler, hok, ht, catchHandler, Thrown.message,
      truthyString]
  · intro name m hm
    simp only [settleEntry, Except.bind, catchHandler, Thrown.message, truthyString, hm,
      bne_iff_ne, ne_eq, not_false_eq_true, if_true, Option.getD_some]
    rw [← String.append_assoc]
    rfl

/-- C9: for `editFile` and `deleteFile`, for every response: if the response
status is a success the call resolves with no value; if it is not a success
the call rejects with exactly the response body text, a string, unprefixed
and unchanged by the trailing catch handler; and if the request itself fails
with an error carrying a non-empty message `m`, the call rejects with the
string "Failed to communicate with server: " followed by `m`. -/
theorem entry_calls_settle (encodeURIComponent : String → String)
    (fetch : EntryRequest → Except Thrown EntryResponse) (id filename : String)
    (expiration : Option String) (note : String) :
    (∀ resp, fetch (editRequest encodeURIComponent id filename expiration note) = .ok resp →
      resp.ok = true →
      editFile encodeURIComponent fetch id filename expiration note = .ok ()) ∧
    (∀ resp body, fetch (editRequest encodeURIComponent id filename expiration note) = .ok resp →
      resp.ok = false → resp.text = .ok body →
      editFile encodeURIComponent fetch id filename expiration note = .error (.str body)) ∧
    (∀ name m, fetch (editRequest encodeURIComponent id filename expiration note) =
        .error (.error name m) → m ≠ "" →
      editFile encodeURIComponent fetch id filename expiration note =
        .error (.str ("Failed to communicate with server: " ++ m))) ∧
    (∀ resp, fetch (deleteRequest id) = .ok resp → resp.ok = true →
      deleteFile fetch id = .ok ()) ∧
    (∀ resp body, fetch (deleteRequest id) = .ok resp → resp.ok = false →
      resp.text = .ok body → deleteFile fetch id = .error (.str body)) ∧
    (∀ name m, fetch (deleteRequest id) = .error (.error name m) → m ≠ "" →
      deleteFile fetch id = .error (.str ("Failed to communicate with server: " ++ m))) := by
  obtain ⟨h1, h2, h3⟩ := settleEntry_cases
  refine ⟨?_, ?_, ?_, ?_, ?_, ?_⟩
  · intro resp hf hok
    rw [editFile, hf]
    exact h1 resp hok
  · intro resp body hf hok ht
    rw [editFile, hf]
    exact h2 resp body hok ht
  · intro name m hf hm
    rw [editFile, hf]
    exact h3 name m hm
  · intro resp hf hok
    rw [deleteFile, hf]
    exact h1 resp hok
  · intro resp body hf hok ht
    rw [deleteFile, hf]
    exact h2 resp body hok ht
  · intro name m hf hm
    rw [deleteFile, hf]
    exact h3 name m hm

/-- Instance of the preceding theorem: a 404 answer to `editFile`, a success
answer to `deleteFile`, and a failed request. -/
theorem entry_calls_settle_witness :
    editFile (fun s => s) notFoundServer "abc" "a.bin" none "" =
      .error (.str "entry not found") ∧
    deleteFile okEntryServer "abc" = .ok () ∧
    deleteFile offlineServer "abc" =
      .error (.str "Failed to communicate with server: Failed to fetch") :=
  ⟨(entry_calls_settle (fun s => s) notFoundServer "abc" "a.bin" none "").2.1
      ⟨false, .ok "entry not found"⟩ "entry not found" rfl rfl rfl,
    (entry_calls_settle (fun s => s) okEntryServer "abc" "a.bin" none "").2.2.2.1
      ⟨true, .ok ""⟩ rfl rfl,
    (entry_calls_settle (fun s => s) offlineServer "abc" "a.bin" none "").2.2.2.2.2
      "TypeError" "Failed to fetch" rfl (by decide)⟩

/-! ## The single-request transport -/

/-- C10, as stated, fails: a 2xx response whose body is the JSON object with
`id` equal to the empty string is not rejected; the call resolves with it. -/
theorem uploadFormDataXHR_accepts_empty_id :
    sampleParse (okExchange "\x7b\"id\":\"\"\x7d").responseText = .ok (.obj [("id", .str "")]) ∧
    (uploadFormDataXHR sampleParse "/api/guest/g1?expiration=x" ⟨sampleFile 1000, none⟩ true
      (okExchange "\x7b\"id\":\"\"\x7d")).result = .ok (.obj [("id", .str "")]) :=
  ⟨rfl, rfl⟩

/-- C10 (amended): for `uploadFormDataXHR`, for every response with a 2xx
status whose body parses as JSON: the call resolves with the parsed body if
and only if that body is an object with an own `id` property, whatever its
value (the empty string included); a body that parses to an object without
`id`, to an array or to a primitive other than `null` rejects with the error
"Missing expected id field", and the body `null` with a `TypeError`. -/
theorem uploadFormDataXHR_success (JSON_parse : String → Except Thrown Json) (url : String)
    (formData : UploadForm) (pf : Bool) (xhr : XhrExchange) (data : Json)
    (herr : xhr.errorEvent = false) (hlo : 200 ≤ xhr.status) (hhi : xhr.status < 300)
    (hparse : JSON_parse xhr.responseText = .ok data) :
    ((uploadFormDataXHR JSON_parse url formData pf xhr).result = .ok data ↔
      ∃ fields v, data = .obj fields ∧ fields.lookup "id" = some v) ∧
    ((∀ fields v, data = .obj fields → fields.lookup "id" ≠ some v) → data ≠ .null →
      (uploadFormDataXHR JSON_parse url formData pf xhr).result =
        .error (.thrown (.error "Error" "Missing expected id field"))) ∧
    (data = .null →
      (uploadFormDataXHR JSON_parse url formData pf xhr).result = .error .engineTypeError) := by
  have hrun : (uploadFormDataXHR JSON_parse url formData pf xhr).result = requireOwnId data := by
    simp [uploadFormDataXHR, xhrSettle, herr, hlo, hhi, hparse]
  rw [hrun]
  cases data with
  | obj fields =>
    cases hl : fields.lookup "id" with
    | none => simp [requireOwnId, Json.hasOwnProperty, hl, missingIdError]
    | some v => simp [requireOwnId, Json.hasOwnProperty, hl]
  | null => simp [requireOwnId, Json.hasOwnProperty]
  | _ => simp [requireOwnId, Json.hasOwnProperty, missingIdError]

/-- Instance of the preceding theorem: the body with an empty `id`. -/
theorem uploadFormDataXHR_success_witness :
    (uploadFormDataXHR sampleParse "/api/guest/g1?expiration=x" ⟨sampleFile 1000, none⟩ true
      (okExchange "\x7b\"id\":\"\"\x7d")).result = .ok (.obj [("id", .str "")]) ↔
    ∃ fields v, Json.obj [("id", .str "")] = .obj fields ∧ fields.lookup "id" = some v :=
  (uploadFormDataXHR_success sampleParse "/api/guest/g1?expiration=x" ⟨sampleFile 1000, none⟩
    true (okExchange "\x7b\"id\":\"\"\x7d") (.obj [("id", .str "")]) rfl (by decide) (by decide)
    rfl).1

end PicoShare
